import Mathlib

/-!
Shallow embedding of the `lock-generations` tool (Rust) for verification.

The core pieces of the repository, embedded below from the source:
* the retention decision of `clean_generations` in `src/main.rs` (lines 128-197);
* `ProtectedState` in `src/protected_state.rs`: load/save with atomic rename,
  protect/unprotect, and config-path resolution;
* the output parsing of `RealNixOsRunner::get_current_generation` in
  `src/real_runner.rs`.

Machine integers (`u32`, `usize`) are modelled as `Nat`; the code performs no
arithmetic that can overflow (the only arithmetic is `saturating_sub`, which is
exactly `Nat` subtraction). File systems, environment variables and I/O failure
are modelled explicitly as data.
-/

/-! ## Retention policy: the decision core of `clean_generations` (main.rs 128-197)

The Rust code collects the generation numbers, sorts them ascending
(`sort_unstable`), builds a `keep` set from the current generation, the
protected generations, and (when `keep_last = Some n`) the trailing `n`
elements of the sorted list (`gen_numbers[gen_numbers.len().saturating_sub(n)..]`),
and deletes the sorted generations not in `keep`.
-/

/-- The `keep` set built in `clean_generations` (main.rs lines 142-158):
the current generation, every protected generation, and, when `keepLast`
is given, the trailing `n` elements of the ascending-sorted generation list
(`saturating_sub` is `Nat` subtraction). -/
def keepIds (gens : List ℕ) (current : ℕ) (protectedIds : Finset ℕ)
    (keepLast : Option ℕ) : Finset ℕ :=
  let sorted := List.insertionSort (· ≤ ·) gens
  let base := insert current protectedIds
  match keepLast with
  | none => base
  | some n => base ∪ (sorted.drop (sorted.length - n)).toFinset

/-- The deletion decision of `clean_generations` (main.rs lines 137-165):
sort the collected generation numbers ascending, then keep exactly those not
in the `keep` set. -/
def clean_to_delete (gens : List ℕ) (current : ℕ) (protectedIds : Finset ℕ)
    (keepLast : Option ℕ) : List ℕ :=
  (List.insertionSort (· ≤ ·) gens).filter
    (fun g => decide (g ∉ keepIds gens current protectedIds keepLast))

example :
    clean_to_delete [1, 2, 3, 4, 5] 5 ∅ none = [1, 2, 3, 4] := by decide

example :
    clean_to_delete [1, 3, 5, 7, 10] 10 ∅ (some 2) = [1, 3, 5] := by decide

example :
    clean_to_delete [1, 2, 3, 4, 5] 5 {2, 4} none = [1, 3] := by decide

lemma mem_keepIds_current (gens : List ℕ) (current : ℕ) (prot : Finset ℕ)
    (kl : Option ℕ) : current ∈ keepIds gens current prot kl := by
  cases kl <;> simp [keepIds]

lemma mem_keepIds_of_protected (gens : List ℕ) (current : ℕ) (prot : Finset ℕ)
    (kl : Option ℕ) {p : ℕ} (hp : p ∈ prot) : p ∈ keepIds gens current prot kl := by
  cases kl <;> simp [keepIds, hp]

lemma not_mem_clean_of_mem_keepIds {gens : List ℕ} {current : ℕ} {prot : Finset ℕ}
    {kl : Option ℕ} {g : ℕ} (h : g ∈ keepIds gens current prot kl) :
    g ∉ clean_to_delete gens current prot kl := by
  intro hmem
  rw [clean_to_delete, List.mem_filter] at hmem
  exact (of_decide_eq_true hmem.2) h

/-- If some member of the list fails the predicate, the filtered list is
strictly shorter. -/
lemma length_filter_lt_of_mem {l : List ℕ} {p : ℕ → Bool} {x : ℕ}
    (hx : x ∈ l) (hpx : p x = false) : (l.filter p).length < l.length := by
  induction l with
  | nil => cases hx
  | cons a t ih =>
    rw [List.filter_cons]
    rcases List.mem_cons.mp hx with rfl | hxt
    · rw [hpx]
      exact Nat.lt_succ_of_le (List.length_filter_le _ _)
    · by_cases hpa : p a = true
      · simp only [hpa, if_true, List.length_cons]
        exact Nat.succ_lt_succ (ih hxt)
      · simp only [Bool.not_eq_true] at hpa
        simp only [hpa, Bool.false_eq_true, if_false]
        exact Nat.lt_succ_of_lt (ih hxt)

/-- On a strictly sorted list, the suffix obtained by dropping all but the last
`n` elements consists exactly of the members with fewer than `n` strictly
larger members. -/
lemma mem_drop_sub_iff {l : List ℕ} (hs : l.Sorted (· < ·)) (n : ℕ) (g : ℕ) :
    g ∈ l.drop (l.length - n) ↔
      g ∈ l ∧ (l.filter (fun x => decide (g < x))).length < n := by
  induction l with
  | nil => simp
  | cons a t ih =>
    rw [List.sorted_cons] at hs
    obtain ⟨ha, ht⟩ := hs
    by_cases hn : t.length + 1 ≤ n
    · have h0 : (a :: t).length - n = 0 := by
        simp only [List.length_cons]; omega
      rw [h0, List.drop_zero]
      constructor
      · intro hg
        refine ⟨hg, ?_⟩
        have hlt : ((a :: t).filter (fun x => decide (g < x))).length
            < (a :: t).length :=
          length_filter_lt_of_mem hg (by simp)
        simp only [List.length_cons] at hlt
        omega
      · exact fun h => h.1
    · have h1 : (a :: t).length - n = (t.length - n) + 1 := by
        simp only [List.length_cons]; omega
      rw [h1, List.drop_succ_cons, ih ht]
      constructor
      · rintro ⟨hgt, hflt⟩
        refine ⟨List.mem_cons_of_mem _ hgt, ?_⟩
        have hag : a < g := ha g hgt
        rw [List.filter_cons]
        simp only [decide_eq_true_eq, show ¬(g < a) by omega, if_false]
        exact hflt
      · rintro ⟨hgc, hflt⟩
        rcases List.mem_cons.mp hgc with rfl | hgt
        · exfalso
          have hft : (g :: t).filter (fun x => decide (g < x)) = t := by
            rw [List.filter_cons]
            simp only [decide_eq_true_eq, lt_irrefl, if_false]
            refine List.filter_eq_self.mpr (fun b hb => ?_)
            simpa using ha b hb
          rw [hft] at hflt
          omega
        · refine ⟨hgt, ?_⟩
          have hag : a < g := ha g hgt
          rw [List.filter_cons] at hflt
          simp only [decide_eq_true_eq, show ¬(g < a) by omega, if_false] at hflt
          exact hflt

/-- C1: the deletion set of `clean_generations` contains neither the current
generation nor any protected generation. -/
theorem clean_spares_current_and_protected (gens : List ℕ) (current : ℕ)
    (prot : Finset ℕ) (kl : Option ℕ) :
    current ∉ clean_to_delete gens current prot kl ∧
      ∀ p ∈ prot, p ∉ clean_to_delete gens current prot kl :=
  ⟨not_mem_clean_of_mem_keepIds (mem_keepIds_current gens current prot kl),
   fun _ hp => not_mem_clean_of_mem_keepIds
     (mem_keepIds_of_protected gens current prot kl hp)⟩

/-- Witness for C1 at a concrete input (current also in the protected set). -/
theorem clean_spares_current_and_protected_witness :
    (5 : ℕ) ∉ clean_to_delete [1, 2, 3, 4, 5] 5 {2, 5} none ∧
      (2 : ℕ) ∉ clean_to_delete [1, 2, 3, 4, 5] 5 {2, 5} none :=
  ⟨(clean_spares_current_and_protected [1, 2, 3, 4, 5] 5 {2, 5} none).1,
   (clean_spares_current_and_protected [1, 2, 3, 4, 5] 5 {2, 5} none).2 2
     (by decide)⟩

/-- Membership in the deletion set under `keep_last = n`, for duplicate-free
generation lists: kept are exactly current, protected, and the ids with fewer
than `n` strictly larger known ids. -/
lemma mem_clean_some_iff {gens : List ℕ} (hnd : gens.Nodup) (current : ℕ)
    (prot : Finset ℕ) (n : ℕ) (g : ℕ) :
    g ∈ clean_to_delete gens current prot (some n) ↔
      g ∈ gens ∧ g ≠ current ∧ g ∉ prot ∧
        n ≤ (gens.filter (fun x => decide (g < x))).length := by
  have hperm : List.Perm (List.insertionSort (· ≤ ·) gens) gens :=
    List.perm_insertionSort (· ≤ ·) gens
  have hsorted : (List.insertionSort (· ≤ ·) gens).Sorted (· < ·) :=
    (List.sorted_insertionSort (· ≤ ·) gens).lt_of_le (hperm.nodup_iff.mpr hnd)
  have hlen : ((List.insertionSort (· ≤ ·) gens).filter
      (fun x => decide (g < x))).length
      = (gens.filter (fun x => decide (g < x))).length :=
    (hperm.filter _).length_eq
  rw [clean_to_delete, List.mem_filter, keepIds]
  simp only [decide_eq_true_eq, Finset.mem_union, Finset.mem_insert,
    List.mem_toFinset, not_or, hperm.mem_iff]
  rw [mem_drop_sub_iff hsorted n g, hperm.mem_iff, hlen]
  constructor
  · rintro ⟨hg, ⟨hne, hnp⟩, hnd2⟩
    refine ⟨hg, hne, hnp, ?_⟩
    by_contra hlt
    exact hnd2 ⟨hg, by omega⟩
  · rintro ⟨hg, hne, hnp, hge⟩
    refine ⟨hg, ⟨hne, hnp⟩, ?_⟩
    rintro ⟨-, hlt⟩
    omega

/-- C2: under `keep_last = n` the deletion set keeps exactly the `n`
numerically-largest known ids beyond current and protected; `n` at least the
number of known ids empties the deletion set (saturating); `keep_last = 0`
retains nothing beyond current and protected. -/
theorem clean_keep_last_semantics (gens : List ℕ) (current : ℕ)
    (prot : Finset ℕ) (n : ℕ) (hnd : gens.Nodup) :
    (∀ g, g ∈ clean_to_delete gens current prot (some n) ↔
        g ∈ gens ∧ g ≠ current ∧ g ∉ prot ∧
          n ≤ (gens.filter (fun x => decide (g < x))).length) ∧
    (gens.length ≤ n → clean_to_delete gens current prot (some n) = []) ∧
    clean_to_delete gens current prot (some 0) =
      clean_to_delete gens current prot none := by
  refine ⟨fun g => mem_clean_some_iff hnd current prot n g, ?_, ?_⟩
  · intro hn
    rw [List.eq_nil_iff_forall_not_mem]
    intro g hg
    obtain ⟨hgm, _, _, hge⟩ := (mem_clean_some_iff hnd current prot n g).mp hg
    have hlt : (gens.filter (fun x => decide (g < x))).length < gens.length :=
      length_filter_lt_of_mem hgm (by simp)
    omega
  · have hkeep : keepIds gens current prot (some 0) =
        keepIds gens current prot none := by
      simp only [keepIds, Nat.sub_zero, List.drop_length, List.toFinset_nil,
        Finset.union_empty]
    rw [clean_to_delete, clean_to_delete, hkeep]

/-- Witness for C2 on scenario D: ids {1,3,5,7,10}, current 10, keep_last 2. -/
theorem clean_keep_last_semantics_witness :
    ((3 : ℕ) ∈ clean_to_delete [1, 3, 5, 7, 10] 10 ∅ (some 2) ↔
      (3 : ℕ) ∈ [1, 3, 5, 7, 10] ∧ (3 : ℕ) ≠ 10 ∧ (3 : ℕ) ∉ (∅ : Finset ℕ) ∧
        2 ≤ ([1, 3, 5, 7, 10].filter (fun x => decide (3 < x))).length) ∧
    clean_to_delete [1, 3, 5, 7, 10] 10 ∅ (some 7) = [] :=
  ⟨(clean_keep_last_semantics [1, 3, 5, 7, 10] 10 ∅ 2 (by decide)).1 3,
   (clean_keep_last_semantics [1, 3, 5, 7, 10] 10 ∅ 7 (by decide)).2.1
     (by decide)⟩

/-- C3: the deletion set is a subset of the known generation ids, and
protected ids that are not known generations have no effect on the result. -/
theorem clean_subset_and_unknown_protected_noop (gens : List ℕ) (current : ℕ)
    (prot : Finset ℕ) (kl : Option ℕ) :
    (∀ g ∈ clean_to_delete gens current prot kl, g ∈ gens) ∧
    clean_to_delete gens current prot kl =
      clean_to_delete gens current (prot.filter (fun p => p ∈ gens)) kl := by
  have hperm : List.Perm (List.insertionSort (· ≤ ·) gens) gens :=
    List.perm_insertionSort (· ≤ ·) gens
  constructor
  · intro g hg
    rw [clean_to_delete, List.mem_filter] at hg
    exact hperm.mem_iff.mp hg.1
  · rw [clean_to_delete, clean_to_delete]
    refine List.filter_congr (fun g hg => ?_)
    have hgm : g ∈ gens := hperm.mem_iff.mp hg
    have hiff : g ∈ keepIds gens current prot kl ↔
        g ∈ keepIds gens current (prot.filter (fun p => p ∈ gens)) kl := by
      cases kl <;>
        simp [keepIds, Finset.mem_filter, hgm]
    rw [decide_eq_decide]
    exact not_congr hiff

/-- Witness for C3 at a concrete input with an unknown protected id (7). -/
theorem clean_subset_and_unknown_protected_noop_witness :
    ((1 : ℕ) ∈ clean_to_delete [1, 2, 3] 3 {2, 7} none → (1 : ℕ) ∈ [1, 2, 3]) ∧
    clean_to_delete [1, 2, 3] 3 {2, 7} none =
      clean_to_delete [1, 2, 3] 3 (Finset.filter (fun p => p ∈ [1, 2, 3]) {2, 7})
        none :=
  ⟨(clean_subset_and_unknown_protected_noop [1, 2, 3] 3 {2, 7} none).1 1,
   (clean_subset_and_unknown_protected_noop [1, 2, 3] 3 {2, 7} none).2⟩

/-! ## ProtectedState: durable protected-set store (protected_state.rs)

The `protected_generations` hash set is modelled as a `Finset ℕ`. The file
system is a map from path strings to optional file contents; a stored file is
either a valid serialized state (the JSON array of the one recognized field)
or unparseable data. I/O failures of `create_dir_all`, `fs::write` and
`fs::rename` are injected through an explicit behaviour record.
-/

/-- Contents of a stored file: a parseable serialized protected state (the
array of generation ids), or data that fails to parse. -/
inductive FileContent where
  | valid (ids : List ℕ) : FileContent
  | invalid : FileContent
deriving DecidableEq

/-- A file system: a map from paths to optional file contents. -/
structure FS where
  files : String → Option FileContent

/-- Writing a file replaces the contents at one path. -/
def FS.writeFile (fs : FS) (p : String) (c : FileContent) : FS :=
  ⟨fun q => if q = p then some c else fs.files q⟩

/-- Model of `fs::rename`: the destination atomically receives the contents
of the source and the source disappears. -/
def FS.renameFile (fs : FS) (src dst : String) : FS :=
  ⟨fun q => if q = dst then fs.files src else if q = src then none else fs.files q⟩

/-- Model of Rust `Path::with_extension`: replace everything after the last
dot with the new extension, or append a dot and the extension when the path
has no dot. (The repository only applies this to paths ending in
`protected.json`, whose last component carries the only dot.) -/
def withExtension (p : String) (ext : String) : String :=
  let rev := p.data.reverse
  if rev.contains '.' then
    String.mk (((rev.dropWhile (fun c => c ≠ '.')).drop 1).reverse) ++ "." ++ ext
  else p ++ "." ++ ext

example : withExtension "protected.json" "tmp" = "protected.tmp" := by decide

/-- Serialized form of a protected state: `serde_json::to_string_pretty` of
the struct holding the `protected_generations` array. The iteration order of the
hash set is unspecified; the model serializes in ascending order, and
the parsed result does not depend on the order. -/
def serializeState (s : Finset ℕ) : FileContent :=
  FileContent.valid (s.sort (· ≤ ·))

/-- Which I/O steps of `save_to` fail in a given run. -/
structure SaveBehavior where
  mkdirFails : Bool
  writeFails : Bool
  renameFails : Bool

/-- Result of a save: the file system afterwards, and whether it succeeded. -/
structure SaveResult where
  fs : FS
  ok : Bool

/-- Embedding of `ProtectedState::save_to` (protected_state.rs lines 53-74): ensure the
parent directory, serialize, write the serialized state to
`path.with_extension("tmp")`, then rename the temporary file onto `path`.
A failing `fs::write` may leave a partially-written temporary file (modelled
as `invalid` contents at the temporary path); the rename is atomic. -/
def save_to (fs : FS) (beh : SaveBehavior) (path : String) (s : Finset ℕ) :
    SaveResult :=
  if beh.mkdirFails then ⟨fs, false⟩
  else
    let tmpPath := withExtension path "tmp"
    if beh.writeFails then ⟨fs.writeFile tmpPath FileContent.invalid, false⟩
    else
      let fs1 := fs.writeFile tmpPath (serializeState s)
      if beh.renameFails then ⟨fs1, false⟩
      else ⟨fs1.renameFile tmpPath path, true⟩

/-- Embedding of `ProtectedState::load_from` (protected_state.rs lines 32-44): a missing
file yields the empty state; otherwise the file is read (`readFails` injects
a read failure) and parsed, and either failure is an error. -/
def load_from (fs : FS) (readFails : Bool) (path : String) :
    Except Unit (Finset ℕ) :=
  match fs.files path with
  | none => Except.ok ∅
  | some c =>
    if readFails then Except.error ()
    else
      match c with
      | FileContent.valid ids => Except.ok ids.toFinset
      | FileContent.invalid => Except.error ()

/-- Embedding of `ProtectedState::protect` (protected_state.rs lines 77-79):
insert the generation; the returned flag is the "newly inserted" result of
`HashSet::insert`. -/
def protect (s : Finset ℕ) (g : ℕ) : Finset ℕ × Bool :=
  (insert g s, decide (g ∉ s))

/-- Embedding of `ProtectedState::unprotect` (protected_state.rs lines 82-84):
remove the generation; the returned flag is the "was present" result of
`HashSet::remove`. -/
def unprotect (s : Finset ℕ) (g : ℕ) : Finset ℕ × Bool :=
  (s.erase g, decide (g ∈ s))

/-- C4: `save_to` writes to a temporary file and atomically renames it onto
the final location; on any I/O failure before the rename completes the
canonical file is untouched, and on success it holds exactly the serialized
state. -/
theorem save_to_atomic (fs : FS) (beh : SaveBehavior) (path : String)
    (s : Finset ℕ) (h : withExtension path "tmp" ≠ path) :
    ((save_to fs beh path s).ok = false →
      (save_to fs beh path s).fs.files path = fs.files path) ∧
    ((save_to fs beh path s).ok = true →
      (save_to fs beh path s).fs.files path = some (serializeState s)) := by
  obtain ⟨b1, b2, b3⟩ := beh
  cases b1 <;> cases b2 <;> cases b3 <;>
    simp [save_to, FS.writeFile, FS.renameFile, Ne.symm h]

/-- Witness for C4: a failing write on an empty file system leaves the
canonical path absent. -/
theorem save_to_atomic_witness :
    (save_to ⟨fun _ => none⟩ ⟨false, true, false⟩
        "protected.json" ∅).fs.files "protected.json"
      = (⟨fun _ => none⟩ : FS).files "protected.json" :=
  (save_to_atomic ⟨fun _ => none⟩ ⟨false, true, false⟩ "protected.json" ∅
    (by decide)).1 rfl

/-- C5: `load_from` yields the empty set when the file is missing, and errors
exactly when the file exists but cannot be read or parsed. -/
theorem load_from_missing_and_error (fs : FS) (rf : Bool) (path : String) :
    (fs.files path = none → load_from fs rf path = Except.ok ∅) ∧
    (load_from fs rf path = Except.error () ↔
      ∃ c, fs.files path = some c ∧
        (rf = true ∨ c = FileContent.invalid)) := by
  constructor
  · intro h
    simp [load_from, h]
  · unfold load_from
    cases hf : fs.files path with
    | none => simp
    | some c => cases c <;> cases rf <;> simp

/-- Witness for C5: a missing file loads as the empty set. -/
theorem load_from_missing_and_error_witness :
    load_from ⟨fun _ => none⟩ false "protected.json" = Except.ok ∅ :=
  (load_from_missing_and_error ⟨fun _ => none⟩ false "protected.json").1 rfl

/-- C6: a successful `save_to` followed by `load_from` yields the saved set
(round trip through the storage format). -/
theorem save_load_round_trip (fs : FS) (beh : SaveBehavior) (path : String)
    (s : Finset ℕ) (hok : (save_to fs beh path s).ok = true) :
    load_from (save_to fs beh path s).fs false path = Except.ok s := by
  obtain ⟨b1, b2, b3⟩ := beh
  cases b1 <;> cases b2 <;> cases b3 <;>
    simp_all [save_to, load_from, FS.renameFile, FS.writeFile, serializeState,
      Finset.sort_toFinset]

/-- Witness for C6 at a concrete set. -/
theorem save_load_round_trip_witness :
    load_from
        (save_to ⟨fun _ => none⟩ ⟨false, false, false⟩ "protected.json"
          {3}).fs false "protected.json"
      = Except.ok {3} :=
  save_load_round_trip ⟨fun _ => none⟩ ⟨false, false, false⟩ "protected.json"
    {3} rfl

/-- C7: `protect` returns true exactly when the id was absent (so protecting
twice returns true then false), and `unprotect` returns true exactly when the
id was present (false on an unprotected id). -/
theorem protect_unprotect_returns (s : Finset ℕ) (g : ℕ) :
    ((protect s g).2 = true ↔ g ∉ s) ∧
    ((unprotect s g).2 = true ↔ g ∈ s) ∧
    (g ∉ s → (protect s g).2 = true ∧ (protect (protect s g).1 g).2 = false) ∧
    (g ∉ s → (unprotect s g).2 = false) := by
  refine ⟨by simp [protect], by simp [unprotect], ?_, ?_⟩
  · intro h
    exact ⟨by simp [protect, h], by simp [protect]⟩
  · intro h
    simp [unprotect, h]

/-- Witness for C7: protecting 1 twice on the empty set. -/
theorem protect_unprotect_returns_witness :
    (protect (∅ : Finset ℕ) 1).2 = true ∧
      (protect (protect (∅ : Finset ℕ) 1).1 1).2 = false :=
  (protect_unprotect_returns ∅ 1).2.2.1 (by decide)

/-! ## Command level: `protect_generation` / `unprotect_generation` (main.rs 72-109)

Each command loads the state, mutates it in memory, and calls `save` only when
the mutation reports a change. -/

/-- Embedding of `protect_generation` (main.rs lines 72-83): load, insert, save only when
newly inserted. The resulting file system is the observable effect. -/
def protect_generation (fs : FS) (beh : SaveBehavior) (rf : Bool)
    (path : String) (g : ℕ) : Except Unit FS :=
  match load_from fs rf path with
  | Except.error e => Except.error e
  | Except.ok s =>
    let pr := protect s g
    if pr.2 then
      let sr := save_to fs beh path pr.1
      if sr.ok then Except.ok sr.fs else Except.error ()
    else Except.ok fs

/-- Embedding of `unprotect_generation` (main.rs lines 98-109): load, remove, save only
when the id was present. -/
def unprotect_generation (fs : FS) (beh : SaveBehavior) (rf : Bool)
    (path : String) (g : ℕ) : Except Unit FS :=
  match load_from fs rf path with
  | Except.error e => Except.error e
  | Except.ok s =>
    let pr := unprotect s g
    if pr.2 then
      let sr := save_to fs beh path pr.1
      if sr.ok then Except.ok sr.fs else Except.error ()
    else Except.ok fs

/-- C10: protecting an already-protected id, or unprotecting an id that is
not protected, performs no write: the file system is returned unchanged. -/
theorem protect_unprotect_no_write_when_unchanged (fs : FS)
    (beh : SaveBehavior) (rf : Bool) (path : String) (g : ℕ) (s : Finset ℕ)
    (hload : load_from fs rf path = Except.ok s) :
    (g ∈ s → protect_generation fs beh rf path g = Except.ok fs) ∧
    (g ∉ s → unprotect_generation fs beh rf path g = Except.ok fs) := by
  constructor
  · intro hg
    simp [protect_generation, hload, protect, hg]
  · intro hg
    simp [unprotect_generation, hload, unprotect, hg]

/-- Witness for C10: unprotecting on an empty store leaves it untouched. -/
theorem protect_unprotect_no_write_when_unchanged_witness :
    unprotect_generation ⟨fun _ => none⟩ ⟨false, false, false⟩ false
        "protected.json" 1
      = Except.ok ⟨fun _ => none⟩ :=
  (protect_unprotect_no_write_when_unchanged ⟨fun _ => none⟩
    ⟨false, false, false⟩ false "protected.json" 1 ∅ rfl).2 (by decide)

/-! ## Config-path resolution (protected_state.rs 95-136)

The environment is modelled explicitly: the two environment variables the code
reads, the user database keyed by name (for the `SUDO_USER` lookup), and the
home directory of the current uid (for the `get_user_by_uid` fallback). -/

/-- The parts of the process environment read by `default_config_path` and
`get_current_user_home`. -/
structure Env where
  xdgConfigHome : Option String
  sudoUser : Option String
  homeVar : Option String
  userHomeByName : String → Option String
  currentUidHome : Option String

/-- Embedding of `ProtectedState::get_current_user_home` (protected_state.rs lines
123-136): the `HOME` variable first, then the user database entry of the
current uid, else the `ConfigResolutionError` bail. -/
def get_current_user_home (env : Env) : Except Unit String :=
  match env.homeVar with
  | some h => Except.ok h
  | none =>
    match env.currentUidHome with
    | some h => Except.ok h
    | none => Except.error ()

/-- Embedding of `ProtectedState::default_config_path` (protected_state.rs lines 95-120):
`XDG_CONFIG_HOME` if set; otherwise the home directory — of the `SUDO_USER`
when set and found in the user database, else of the current user — joined
with `.config`; finally joined with `lock-generations/protected.json`. -/
def default_config_path (env : Env) : Except Unit String :=
  match env.xdgConfigHome with
  | some xdg => Except.ok (xdg ++ "/lock-generations/protected.json")
  | none =>
    let homeRes : Except Unit String :=
      match env.sudoUser with
      | some su =>
        match env.userHomeByName su with
        | some h => Except.ok h
        | none => get_current_user_home env
      | none => get_current_user_home env
    match homeRes with
    | Except.ok home =>
      Except.ok (home ++ "/.config/lock-generations/protected.json")
    | Except.error e => Except.error e

/-- Whether the `SUDO_USER` branch fails to identify another user (variable
unset, or that user absent from the user database). -/
def sudoUnidentified (env : Env) : Prop :=
  match env.sudoUser with
  | none => True
  | some su => env.userHomeByName su = none

instance (env : Env) : Decidable (sudoUnidentified env) := by
  unfold sudoUnidentified
  cases env.sudoUser <;> infer_instance

/-- C8: config-location resolution priority: (a) the `XDG_CONFIG_HOME`
override; (b) otherwise the home config directory of the identified `SUDO_USER`;
(c) otherwise the home of the invoking user from `HOME`, then the uid lookup;
and it errors exactly when every method fails to produce a home directory. -/
theorem default_config_path_priority (env : Env) :
    (∀ x, env.xdgConfigHome = some x →
      default_config_path env
        = Except.ok (x ++ "/lock-generations/protected.json")) ∧
    (env.xdgConfigHome = none → ∀ su h, env.sudoUser = some su →
      env.userHomeByName su = some h →
      default_config_path env
        = Except.ok (h ++ "/.config/lock-generations/protected.json")) ∧
    (env.xdgConfigHome = none → sudoUnidentified env → ∀ h,
      env.homeVar = some h →
      default_config_path env
        = Except.ok (h ++ "/.config/lock-generations/protected.json")) ∧
    (env.xdgConfigHome = none → sudoUnidentified env → env.homeVar = none →
      ∀ h, env.currentUidHome = some h →
      default_config_path env
        = Except.ok (h ++ "/.config/lock-generations/protected.json")) ∧
    ((∃ e, default_config_path env = Except.error e) ↔
      env.xdgConfigHome = none ∧ sudoUnidentified env ∧
        env.homeVar = none ∧ env.currentUidHome = none) := by
  refine ⟨?_, ?_, ?_, ?_, ?_⟩
  · intro x hx
    simp [default_config_path, hx]
  · intro hx su h hsu hname
    simp [default_config_path, hx, hsu, hname]
  · intro hx hsu h hh
    unfold default_config_path sudoUnidentified at *
    cases hs : env.sudoUser with
    | none => simp [hx, hs, get_current_user_home, hh]
    | some su =>
      rw [hs] at hsu
      simp [hx, hs, hsu, get_current_user_home, hh]
  · intro hx hsu hh h hu
    unfold default_config_path sudoUnidentified at *
    cases hs : env.sudoUser with
    | none => simp [hx, hs, get_current_user_home, hh, hu]
    | some su =>
      rw [hs] at hsu
      simp [hx, hs, hsu, get_current_user_home, hh, hu]
  · unfold default_config_path sudoUnidentified get_current_user_home
    cases hx : env.xdgConfigHome <;>
      cases hs : env.sudoUser <;>
        cases hh : env.homeVar <;>
          cases hu : env.currentUidHome <;>
            simp <;>
    rcases hn : env.userHomeByName _ with _ | v <;> simp [hn]

/-- Witness for C8: the `XDG_CONFIG_HOME` override wins. -/
theorem default_config_path_priority_witness :
    default_config_path ⟨some "/xdg", none, none, fun _ => none, none⟩
      = Except.ok ("/xdg" ++ "/lock-generations/protected.json") :=
  (default_config_path_priority
    ⟨some "/xdg", none, none, fun _ => none, none⟩).1 "/xdg" rfl

/-! ## Current-generation parsing (real_runner.rs 70-98)

`get_current_generation` scans the lines of `nix-env --list-generations`
output for one containing the literal marker `"(current)"`; on such a line it
takes the first whitespace-delimited token and, when it parses as a `u32`,
returns it. A marked line whose first token does not parse is skipped like
any other line, and the scan ends in the `CurrentGenerationNotFound` bail.
Lines are modelled as lists of characters. -/

/-- Whether `pat` is a prefix of `cs` (model of the matching step of the Rust
function `str::contains`). -/
def matchesAt : List Char → List Char → Bool
  | [], _ => true
  | _ :: _, [] => false
  | p :: ps, c :: cs => p = c && matchesAt ps cs

/-- Rust `str::contains`: some suffix of `cs` starts with `pat`. -/
def containsSub (pat : List Char) : List Char → Bool
  | [] => matchesAt pat []
  | c :: cs => matchesAt pat (c :: cs) || containsSub pat cs

/-- The characters of the literal marker `"(current)"`. -/
def markerChars : List Char :=
  ['(', 'c', 'u', 'r', 'r', 'e', 'n', 't', ')']

/-- Model of `line.trim().split_whitespace().next()`: the first maximal run of
non-whitespace characters, if any. -/
def firstWhitespaceToken (cs : List Char) : Option (List Char) :=
  match cs.dropWhile (fun c => c.isWhitespace) with
  | [] => none
  | c :: rest => some ((c :: rest).takeWhile (fun d => ¬ d.isWhitespace))

/-- Rust `str::parse::<u32>` restricted to plain digit strings: a non-empty
all-digit token below `2^32` parses to its value. -/
def parseU32 (cs : List Char) : Option ℕ :=
  match cs with
  | [] => none
  | _ :: _ =>
    if cs.all (fun c => c.isDigit) then
      let n := cs.foldl (fun acc c => acc * 10 + (c.toNat - 48)) 0
      if n < 4294967296 then some n else none
    else none

/-- One iteration of the scan loop of `get_current_generation` (real_runner.rs
lines 87-95): a value is produced from a line exactly when the line contains
the marker and its first token parses. -/
def lineCurrentGen (cs : List Char) : Option ℕ :=
  if containsSub markerChars cs then
    (firstWhitespaceToken cs).bind parseU32
  else none

/-- Embedding of `RealNixOsRunner::get_current_generation` (real_runner.rs lines 70-98) on
the stdout lines: the first line yielding a value, else the
`CurrentGenerationNotFound` bail (`none`). -/
def get_current_generation (lines : List (List Char)) : Option ℕ :=
  lines.findSome? lineCurrentGen

example :
    get_current_generation
      ["  1   2024-01-15 10:30:45".data,
       "  3   2024-01-17 09:15:30   (current)".data] = some 3 := by decide

/-- C9 counterexample: a line that carries the marker but has no parseable
leading generation number makes the scan fail, so "fails iff no line carries
the marker" is false on this input. -/
theorem get_current_generation_marker_only_counterexample :
    get_current_generation ["(current)".data] = none ∧
      containsSub markerChars "(current)".data = true := by decide

/-- C9 amended: the scan returns a value parsed from a marker-carrying line,
and fails exactly when no line both carries the marker and has a first
whitespace-delimited token that parses as a `u32`. -/
theorem get_current_generation_semantics (lines : List (List Char)) :
    (get_current_generation lines = none ↔
      ∀ cs ∈ lines, ¬(containsSub markerChars cs = true ∧
        ∃ n, (firstWhitespaceToken cs).bind parseU32 = some n)) ∧
    (∀ n, get_current_generation lines = some n →
      ∃ cs ∈ lines, containsSub markerChars cs = true ∧
        (firstWhitespaceToken cs).bind parseU32 = some n) := by
  constructor
  · rw [get_current_generation, List.findSome?_eq_none_iff]
    constructor
    · rintro h cs hcs ⟨hm, n, hp⟩
      have hnone := h cs hcs
      rw [lineCurrentGen, if_pos hm, hp] at hnone
      cases hnone
    · intro h cs hcs
      by_cases hm : containsSub markerChars cs = true
      · have hnot := h cs hcs
        rw [lineCurrentGen, if_pos hm]
        cases hb : (firstWhitespaceToken cs).bind parseU32 with
        | none => rfl
        | some n => exact absurd ⟨hm, n, hb⟩ hnot
      · rw [lineCurrentGen, if_neg hm]
  · intro n hn
    rw [get_current_generation] at hn
    obtain ⟨cs, hcs, hline⟩ := List.exists_of_findSome?_eq_some hn
    refine ⟨cs, hcs, ?_⟩
    by_cases hm : containsSub markerChars cs = true
    · rw [lineCurrentGen, if_pos hm] at hline
      exact ⟨hm, hline⟩
    · rw [lineCurrentGen, if_neg hm] at hline
      cases hline

/-- Witness for C9 (amended) on a realistic two-line output. -/
theorem get_current_generation_semantics_witness :
    ∃ cs ∈ ["  1   2024-01-15 10:30:45".data,
        "  3   2024-01-17 09:15:30   (current)".data],
      containsSub markerChars cs = true ∧
        (firstWhitespaceToken cs).bind parseU32 = some 3 :=
  (get_current_generation_semantics
    ["  1   2024-01-15 10:30:45".data,
     "  3   2024-01-17 09:15:30   (current)".data]).2 3 (by decide)
